import Mathlib

/-!
# Verification of the MaxMovies admission-control subsystem

Shallow embedding of the rate limiter (`RateLimiter` in
`src/api/maxmovies/route.js`) and the heuristic spam classifier
(`SpamDetector`), together with proofs about their behaviour.

Modelling conventions:
* Timestamps are milliseconds since the Unix epoch, modelled as `ℕ`
  (JavaScript `Date.now()`).
* A read of a persisted JSON record yields a `ReadResult`: the file may be
  absent, unparseable (`corrupt`), or hold a parsed record.  The source
  catches all parse errors, so a `corrupt` read never propagates.
* The per-key file store `/tmp/ratelimits` is modelled as a pair of total
  maps from key strings to read results (counter files and token files use
  disjoint key prefixes, so they never alias).
* JavaScript strings are modelled as Lean `String`/`List Char`.
-/

namespace MaxMovies

/-- Result of reading a persisted JSON record: the file may be missing,
unparseable/corrupted, or contain a parsed value.  The source treats the
first two identically on the read path (`try … catch` around
`JSON.parse`). -/
inductive ReadResult (α : Type) where
  | absent : ReadResult α
  | corrupt : ReadResult α
  | ok : α → ReadResult α
deriving DecidableEq, Repr

/-- A fixed-window counter record, as stored in a `<key>.json` file:
`{ count, resetAt, firstRequest }`. -/
structure LimitRecord where
  count : ℕ
  resetAt : ℕ
  firstRequest : ℕ
deriving DecidableEq, Repr

/-- A daily token budget record, as stored in a `tokens_<user>.json` file:
`{ total }`.  (`data.total || 0` in the source; a missing field behaves as
`0`, which we fold into the parsed value.) -/
structure TokenRecord where
  total : ℤ
deriving DecidableEq, Repr

/-- The verdict object built by `RateLimiter.checkLimit` (`limits` in the
source): `{ allowed, violations, retryAfter, resetAt }`. -/
structure Verdict where
  allowed : Bool
  violations : List String
  retryAfter : ℕ
  resetAt : ℕ
deriving DecidableEq, Repr

/-- `RATE_LIMITS.FREE.requestsPerMinute`. -/
def requestsPerMinute : ℕ := 30
/-- `RATE_LIMITS.FREE.requestsPerHour`. -/
def requestsPerHour : ℕ := 200
/-- `RATE_LIMITS.FREE.burstWindowMs`. -/
def burstWindowMs : ℕ := 10000
/-- `RATE_LIMITS.FREE.burstMax`. -/
def burstMax : ℕ := 5
/-- `RATE_LIMITS.FREE.dailyTokens`. -/
def dailyTokens : ℤ := 100000

/-- `Math.ceil(x / 1000)` for a nonnegative millisecond difference `x`.
In `checkLimit` the argument `resetAt - now` is computed in JavaScript
number arithmetic; whenever a violation fires the record came from the
non-expired branch of `getLimit`, so `resetAt ≥ now` and truncated `ℕ`
subtraction agrees with the source. -/
def ceilSeconds (ms : ℕ) : ℕ := (ms + 999) / 1000

/-- `RateLimiter.getLimit(key, windowMs)`: read the counter file for
`key`; a missing or corrupted file, or a record whose window has expired
(`now > data.resetAt`), is replaced by a fresh zero record
`{ count: 0, resetAt: now + windowMs, firstRequest: now }`. -/
def getLimit (stored : ReadResult LimitRecord) (windowMs now : ℕ) : LimitRecord :=
  match stored with
  | .ok data => if now > data.resetAt then ⟨0, now + windowMs, now⟩ else data
  | _ => ⟨0, now + windowMs, now⟩

/-- `RateLimiter.updateLimit(key, windowMs)`: re-read via `getLimit`,
increment the count, and if the window has expired reset to a fresh
window of count 1.  Returns the record written back to the store (the
source's `fs.writeFileSync`; write failures are logged and ignored, we
model the successful write). -/
def updateLimit (stored : ReadResult LimitRecord) (windowMs now : ℕ) : LimitRecord :=
  let data := getLimit stored windowMs now
  let data : LimitRecord := { data with count := data.count + 1 }
  if now > data.resetAt then ⟨1, now + windowMs, now⟩ else data

/-- The timestamp of the next UTC midnight after `now`:
`new Date()` with `setUTCHours(24, 0, 0, 0)` yields the upcoming midnight
of the current UTC day (Unix time has no leap seconds, so UTC days are
exactly 86,400,000 ms). -/
def nextUtcMidnight (now : ℕ) : ℕ := (now / 86400000 + 1) * 86400000

/-- `RateLimiter.getDailyTokens(key)`: read the token file; a missing or
corrupted file yields 0.  For a parsed record the source compares `now`
against the *next* UTC midnight (`midnight.setUTCHours(24,0,0,0)`) and
returns 0 when `now` exceeds it, otherwise `data.total || 0`. -/
def getDailyTokens (stored : ReadResult TokenRecord) (now : ℕ) : ℤ :=
  match stored with
  | .ok data =>
      let midnightTime := nextUtcMidnight now
      if now > midnightTime then 0 else data.total
  | _ => 0

/-- `RateLimiter.updateDailyTokens(key, tokens)`: parse the file (missing
file means `{ total: 0 }`), then either overwrite the total with `tokens`
(when `now` exceeds the next UTC midnight) or add `tokens` to it, and
write the record back.  A parse error is caught *around the whole body*,
so on a corrupted file nothing is written and the file stays corrupted. -/
def updateDailyTokens (stored : ReadResult TokenRecord) (tokens : ℤ) (now : ℕ) :
    ReadResult TokenRecord :=
  match stored with
  | .corrupt => .corrupt
  | .absent =>
      if now > nextUtcMidnight now then .ok ⟨tokens⟩ else .ok ⟨0 + tokens⟩
  | .ok data =>
      if now > nextUtcMidnight now then .ok ⟨tokens⟩ else .ok ⟨data.total + tokens⟩

/-- The rate-limit directory `/tmp/ratelimits`, modelled as total maps
from file key to read result.  Counter files (`minute_…`, `hour_…`,
`burst_…`, `ip_…`) and token files (`tokens_…`) hold different record
shapes; their key prefixes are disjoint, so keeping them in two maps
introduces no aliasing the file system would have. -/
structure Store where
  limits : String → ReadResult LimitRecord
  tokens : String → ReadResult TokenRecord

/-- Write a counter record back to the store. -/
def Store.setLimit (st : Store) (key : String) (r : LimitRecord) : Store :=
  { st with limits := fun k => if k = key then .ok r else st.limits k }

/-- Write a token record (or leave a corrupt file untouched) back to the
store. -/
def Store.setTokens (st : Store) (key : String) (r : ReadResult TokenRecord) : Store :=
  { st with tokens := fun k => if k = key then r else st.tokens k }

/-- ``minute_${userId}_${ip}``. -/
def minuteKey (userId ip : String) : String := "minute_" ++ userId ++ "_" ++ ip
/-- ``hour_${userId}_${ip}``. -/
def hourKey (userId ip : String) : String := "hour_" ++ userId ++ "_" ++ ip
/-- ``burst_${userId}_${ip}``. -/
def burstKey (userId ip : String) : String := "burst_" ++ userId ++ "_" ++ ip
/-- ``tokens_${userId}``. -/
def tokenKey (userId : String) : String := "tokens_" ++ userId
/-- ``ip_${ip}``. -/
def ipKey (ip : String) : String := "ip_" ++ ip

/-- The pure verdict computation of `RateLimiter.checkLimit(userId, ip,
tokens)`, as a function of the five stored records it reads and the
current time.  Mirrors the source statement by statement: `limits` starts
out allowed with no violations, `retryAfter = 0` and
`resetAt = now + 60000`; each failing check sets `allowed = false`,
pushes its message and updates `retryAfter`.  Note that the daily-token
check *assigns* `retryAfter = 86400` while the others take a `Math.max`. -/
def checkVerdict (minuteR hourR burstR : ReadResult LimitRecord)
    (tokenR : ReadResult TokenRecord) (ipR : ReadResult LimitRecord)
    (tokens : ℤ) (now : ℕ) : Verdict :=
  let limits : Verdict := ⟨true, [], 0, now + 60000⟩
  let minuteLimit := getLimit minuteR 60000 now
  let limits :=
    if minuteLimit.count ≥ requestsPerMinute then
      { limits with
        allowed := false
        violations := limits.violations ++ ["Minute limit (30/min)"]
        retryAfter := max limits.retryAfter (ceilSeconds (minuteLimit.resetAt - now)) }
    else limits
  let hourLimit := getLimit hourR 3600000 now
  let limits :=
    if hourLimit.count ≥ requestsPerHour then
      { limits with
        allowed := false
        violations := limits.violations ++ ["Hour limit (200/hour)"]
        retryAfter := max limits.retryAfter (ceilSeconds (hourLimit.resetAt - now)) }
    else limits
  let burstLimit := getLimit burstR burstWindowMs now
  let limits :=
    if burstLimit.count ≥ burstMax then
      { limits with
        allowed := false
        violations := limits.violations ++ ["Burst limit (5/10s)"]
        retryAfter := max limits.retryAfter (ceilSeconds (burstLimit.resetAt - now)) }
    else limits
  let tokenUsage := getDailyTokens tokenR now
  let limits :=
    if tokenUsage + tokens > dailyTokens then
      { limits with
        allowed := false
        violations := limits.violations ++ ["Daily token limit (100000)"]
        retryAfter := 86400 }
    else limits
  let ipLimit := getLimit ipR 3600000 now
  let limits :=
    if ipLimit.count > 1000 then
      { limits with
        allowed := false
        violations := limits.violations ++ ["IP limit exceeded"]
        retryAfter := max limits.retryAfter (ceilSeconds (ipLimit.resetAt - now)) }
    else limits
  limits

/-- The five writes performed by `checkLimit` when the verdict is
allowed, in source order: minute, hour and burst windows, the daily
token charge, and the IP window.  `updateLimit`/`updateDailyTokens`
re-read each file before writing; the five keys of one call are pairwise
distinct, so later re-reads see the original values of their own keys. -/
def commitUpdates (st : Store) (userId ip : String) (tokens : ℤ) (now : ℕ) : Store :=
  let st := st.setLimit (minuteKey userId ip)
    (updateLimit (st.limits (minuteKey userId ip)) 60000 now)
  let st := st.setLimit (hourKey userId ip)
    (updateLimit (st.limits (hourKey userId ip)) 3600000 now)
  let st := st.setLimit (burstKey userId ip)
    (updateLimit (st.limits (burstKey userId ip)) burstWindowMs now)
  let st := st.setTokens (tokenKey userId)
    (updateDailyTokens (st.tokens (tokenKey userId)) tokens now)
  let st := st.setLimit (ipKey ip)
    (updateLimit (st.limits (ipKey ip)) 3600000 now)
  st

/-- `RateLimiter.checkLimit(userId, ip, tokens)`: compute the verdict
from the five stored records, then — only when `allowed` — perform the
five corresponding writes (`// Update counts if allowed`). -/
def checkLimit (st : Store) (userId ip : String) (tokens : ℤ) (now : ℕ) :
    Verdict × Store :=
  let limits := checkVerdict (st.limits (minuteKey userId ip))
    (st.limits (hourKey userId ip)) (st.limits (burstKey userId ip))
    (st.tokens (tokenKey userId)) (st.limits (ipKey ip)) tokens now
  (limits, if limits.allowed then commitUpdates st userId ip tokens now else st)

/-- Run a sequence of `checkLimit` calls against one store: each request
is a `(userId, time)` pair, all sharing one client IP and one token
estimate.  Returns the final store and the verdicts in request order. -/
def runRequests (st : Store) (ip : String) (tokens : ℤ) :
    List (String × ℕ) → Store × List Verdict
  | [] => (st, [])
  | (u, t) :: rest =>
      let r := checkLimit st u ip tokens t
      let rec' := runRequests r.2 ip tokens rest
      (rec'.1, r.1 :: rec'.2)



/-! ## Spam classifier (`SpamDetector` in `src/api/maxmovies/route.js`) -/

/-- The JavaScript whitespace class (`\s` in regexes, and the characters
removed by `String.prototype.trim`). -/
def isJsSpace (c : Char) : Bool :=
  c == ' ' || c == '\t' || c == '\n' || c == '\r' ||
  c.toNat == 0x0b || c.toNat == 0x0c || c.toNat == 0xa0 || c.toNat == 0x1680 ||
  (0x2000 ≤ c.toNat && c.toNat ≤ 0x200a) ||
  c.toNat == 0x2028 || c.toNat == 0x2029 || c.toNat == 0x202f ||
  c.toNat == 0x205f || c.toNat == 0x3000 || c.toNat == 0xfeff

/-- JavaScript regex line terminators, the characters `.` does not match
without the `s` flag. -/
def isLineTerm (c : Char) : Bool :=
  c == '\n' || c == '\r' || c.toNat == 0x2028 || c.toNat == 0x2029

/-- Does `needle` occur at the very start of `hay`? -/
def matchesAt : (hay needle : List Char) → Bool
  | _, [] => true
  | [], _ :: _ => false
  | a :: hs, b :: ns => a == b && matchesAt hs ns

/-- Does `f` hold of some suffix of the list (i.e. does the regex body
`f` recognises match at some position)? -/
def anySuffix (f : List Char → Bool) : List Char → Bool
  | [] => f []
  | c :: t => f (c :: t) || anySuffix f t

/-- `String.prototype.includes`: does `needle` occur anywhere in `hay`? -/
def includesSub (hay needle : List Char) : Bool :=
  anySuffix (fun s => matchesAt s needle) hay

/-- Do the next `n` characters exist and all satisfy `p`? -/
def runAt (p : Char → Bool) : ℕ → List Char → Bool
  | 0, _ => true
  | _ + 1, [] => false
  | n + 1, c :: t => p c && runAt p n t

/-- First alternation of suspicious pattern 0. -/
def promoFirstWords : List (List Char) :=
  ["buy".data, "sell".data, "cheap".data, "discount".data, "offer".data, "deal".data]

/-- Second alternation of suspicious pattern 0. -/
def promoSecondWords : List (List Char) :=
  ["followers".data, "likes".data, "views".data, "subscribers".data]

/-- `\s+(followers|likes|views|subscribers)` at the head of the list: one
or more whitespace characters followed by one of the second words. -/
def spacesThenSecond : List Char → Bool
  | [] => false
  | c :: t => isJsSpace c &&
      (promoSecondWords.any (fun w => matchesAt t w) || spacesThenSecond t)

/-- Suspicious pattern 0:
`/(buy|sell|cheap|discount|offer|deal)\s+(followers|likes|views|subscribers)/i`
(the `i` flag folds both the input and the alternatives to lower case). -/
def pattern0 (l : List Char) : Bool :=
  let lower := l.map Char.toLower
  anySuffix (fun s => promoFirstWords.any
    (fun w => matchesAt s w && spacesThenSecond (s.drop w.length))) lower

/-- The schemes matched by `(http|https|ftp)://` (ordered alternation
with backtracking reaches all three). -/
def urlSchemes : List (List Char) := ["http://".data, "https://".data, "ftp://".data]

/-- Suspicious pattern 1: `/(http|https|ftp):\/\/[^\s]+/g` — a scheme
followed by at least one non-whitespace character. -/
def pattern1 (l : List Char) : Bool :=
  anySuffix (fun s => urlSchemes.any (fun sch => matchesAt s sch &&
    (match s.drop sch.length with
     | c :: _ => !isJsSpace c
     | [] => false))) l

/-- Suspicious pattern 2: `/[0-9]{16,}/` — sixteen consecutive ASCII
digits somewhere in the text. -/
def pattern2 (l : List Char) : Bool :=
  anySuffix (runAt Char.isDigit 16) l

/-- Suspicious pattern 3: `/(\S)\1{15,}/` — a non-whitespace character
followed by fifteen more copies of itself. -/
def pattern3 (l : List Char) : Bool :=
  anySuffix (fun s => match s with
    | c :: t => !isJsSpace c && runAt (fun d => d == c) 15 t
    | [] => false) l

/-- Does a block of length `L` of non-line-terminator characters start
here and repeat at least four times in a row (`(.{20,})\1{3,}` at one
position, for one captured length)? -/
def repeatedBlockAt (s : List Char) (L : ℕ) : Bool :=
  let b := s.take L
  b.length == L && b.all (fun c => !isLineTerm c) &&
  matchesAt (s.drop L) b && matchesAt (s.drop (2 * L)) b && matchesAt (s.drop (3 * L)) b

/-- Suspicious pattern 4: `/(.{20,})\1{3,}/` — some substring of length
at least 20 immediately repeated at least three more times (backtracking
tries every capture length). -/
def pattern4 (l : List Char) : Bool :=
  anySuffix (fun s =>
    (List.range (s.length / 4 + 1)).any (fun L => 20 ≤ L && repeatedBlockAt s L)) l

/-- `this.suspiciousPatterns`, in source order. -/
def suspiciousPatterns : List (List Char → Bool) :=
  [pattern0, pattern1, pattern2, pattern3, pattern4]

/-- `this.suspiciousKeywords`, in source order. -/
def suspiciousKeywords : List String :=
  ["casino", "gambling", "porn", "xxx", "viagra", "cialis",
   "crypto", "bitcoin", "investment", "earn money", "work from home",
   "click here", "bit.ly", "tinyurl", "shorturl", "adf.ly",
   "prescription", "drugs", "medication", "lottery", "betting"]

/-- The decision `calculateEntropy(prompt) > this.gibberishThreshold`
(threshold 4.5).  `calculateEntropy` returns 0 for texts shorter than 10
characters; otherwise it is the Shannon entropy
`H = log2 n - (1/n) * Σ_c f_c * log2 f_c` of the character frequency
distribution.  Over the reals, `H > 9/2` holds iff
`n ^ (2n) > 2 ^ (9n) * Π_c f_c ^ (2 f_c)` (multiply by `2n` and
exponentiate base 2), which is the exact integer criterion used here; the
source computes `H` with IEEE doubles, modelled as exact real
arithmetic. -/
def entropyExceeds (l : List Char) : Bool :=
  if l.length < 10 then false
  else
    let n := l.length
    let freqs := l.dedup.map (fun c => l.count c)
    n ^ (2 * n) > 2 ^ (9 * n) * (freqs.map (fun f => f ^ (2 * f))).prod

/-- `(prompt.match(/(.)\1{10,}/g) || []).length`: with greedy repetition
and a global scan, each maximal run of one repeated character yields one
match exactly when the run is at least 11 long and its character is not a
line terminator (which `.` cannot match). -/
def repeatedChars (l : List Char) : ℕ :=
  (l.splitBy (· == ·)).countP
    (fun g => 11 ≤ g.length && (match g.head? with
      | some c => !isLineTerm c
      | none => false))

/-- The result object of `SpamDetector.analyze`:
`{ isSpam, score, flags, reason }`. -/
structure SpamResult where
  isSpam : Bool
  score : ℕ
  flags : List String
  reason : String
deriving DecidableEq, Repr

/-- The length checks of `analyze` (`// Check length`): shorter than 2
characters adds 20 with flag `too_short`; longer than 2000 adds 15 with
flag `too_long`.  The accumulator pairs the running score with the
ordered flag list. -/
def lengthStage (p : List Char) (acc : ℕ × List String) : ℕ × List String :=
  let acc := if p.length < 2 then (acc.1 + 20, acc.2 ++ ["too_short"]) else acc
  if p.length > 2000 then (acc.1 + 15, acc.2 ++ ["too_long"]) else acc

/-- The pattern checks of `analyze` (`// Check patterns`): each matching
pattern adds 25 with flag ``pattern_${index}``. -/
def patternStage (p : List Char) (acc : ℕ × List String) : ℕ × List String :=
  suspiciousPatterns.enum.foldl
    (fun a ib => if ib.2 p then (a.1 + 25, a.2 ++ ["pattern_" ++ toString ib.1]) else a) acc

/-- The keyword checks of `analyze` (`// Check keywords`): each keyword
found in the lower-cased prompt adds 20 with flag
``keyword_${keyword}``. -/
def keywordStage (p : List Char) (acc : ℕ × List String) : ℕ × List String :=
  let lowerPrompt := p.map Char.toLower
  suspiciousKeywords.foldl
    (fun a kw => if includesSub lowerPrompt kw.data then
      (a.1 + 20, a.2 ++ ["keyword_" ++ kw]) else a) acc

/-- The entropy check of `analyze` (`// Check for gibberish`): high
entropy adds 30 with flag `high_entropy`. -/
def entropyStage (p : List Char) (acc : ℕ × List String) : ℕ × List String :=
  if entropyExceeds p then (acc.1 + 30, acc.2 ++ ["high_entropy"]) else acc

/-- The repetition check of `analyze` (`// Check for excessive
repetition`): `count` matches add `count * 10` with flag
``repetition_${count}``, only when the count is positive. -/
def repetitionStage (p : List Char) (acc : ℕ × List String) : ℕ × List String :=
  let rep := repeatedChars p
  if rep > 0 then (acc.1 + rep * 10, acc.2 ++ ["repetition_" ++ toString rep]) else acc

/-- `SpamDetector.analyze(prompt)`: run the checks in source order —
length (short, long), the five patterns, the keyword denylist, the
entropy check, and the repetition count — then derive
`isSpam = score > 40` and `reason = flags.join(", ")`. -/
def analyze (prompt : String) : SpamResult :=
  let p := prompt.data
  let acc := repetitionStage p (entropyStage p (keywordStage p
    (patternStage p (lengthStage p (0, [])))))
  { isSpam := decide (acc.1 > 40)
    score := acc.1
    flags := acc.2
    reason := String.intercalate ", " acc.2 }

/-- `sanitizeInput(text)` for string inputs: remove every `<` and `>`,
truncate to the first 2000 characters, and trim surrounding whitespace,
in that order.  (A non-string input yields `''` before these steps; the
model takes string inputs.) -/
def sanitizeInput (text : String) : String :=
  let noAngles := text.data.filter (fun c => !(c == '<' || c == '>'))
  let limited := noAngles.take 2000
  let trimmed := ((limited.dropWhile isJsSpace).reverse.dropWhile isJsSpace).reverse
  String.mk trimmed

/-- A user with no stored per-user state for this IP: the minute, hour
and burst counter files for the `(user, ip)` pair and the user's token
file are all absent. -/
def freshUser (st : Store) (u i : String) : Prop :=
  st.limits (minuteKey u i) = .absent ∧ st.limits (hourKey u i) = .absent ∧
  st.limits (burstKey u i) = .absent ∧ st.tokens (tokenKey u) = .absent

/-- A family of pairwise-distinct user ids (`"u"`, `"uu"`, `"uuu"`, …)
used to instantiate boundary scenarios with many distinct users. -/
def demoUser (n : ℕ) : String := String.mk (List.replicate (n + 1) 'u')

/-- 1000 requests at time 0, one per distinct demo user. -/
def demoReqs : List (String × ℕ) := (List.range 1000).map (fun n => (demoUser n, 0))

/-- The empty store: every file is absent. -/
def demoStore : Store := ⟨fun _ => .absent, fun _ => .absent⟩

/-- Thirty request times inside one 60-second minute window, spread five
per burst window (bases 10002 ms apart) so that the burst check never
binds. -/
def demoTimesTail : List ℕ :=
  [1, 2, 3, 4, 10002, 10003, 10004, 10005, 10006,
   20004, 20005, 20006, 20007, 20008, 30006, 30007, 30008, 30009, 30010,
   40008, 40009, 40010, 40011, 40012, 50010, 50011, 50012, 50013, 50014]

/-! ## Basic facts about the token budget tracker -/

/-- `now` is always strictly before the next UTC midnight computed from
`now` itself — the guard `now > midnightTime` in `getDailyTokens` and
`updateDailyTokens` can never hold. -/
theorem lt_nextUtcMidnight (now : ℕ) : now < nextUtcMidnight now := by
  simp only [nextUtcMidnight]
  omega

/-- Reading a parsed token record returns its stored total unchanged, at
every query time: the midnight-reset branch is dead code. -/
theorem getDailyTokens_ok (d : TokenRecord) (now : ℕ) :
    getDailyTokens (.ok d) now = d.total := by
  have h := lt_nextUtcMidnight now
  simp only [getDailyTokens]
  rw [if_neg (by omega)]

/-- Charging on a parsed record always adds to the stored total (the
day-rollover overwrite branch is dead code). -/
theorem updateDailyTokens_ok (d : TokenRecord) (t : ℤ) (now : ℕ) :
    updateDailyTokens (.ok d) t now = .ok ⟨d.total + t⟩ := by
  have h := lt_nextUtcMidnight now
  simp only [updateDailyTokens]
  rw [if_neg (by omega)]

/-- Charging on a missing record stores `0 + tokens`. -/
theorem updateDailyTokens_absent (t : ℤ) (now : ℕ) :
    updateDailyTokens .absent t now = .ok ⟨0 + t⟩ := by
  have h := lt_nextUtcMidnight now
  simp only [updateDailyTokens]
  rw [if_neg (by omega)]

/-- Claim C1 (refuting evaluation).  The spec claims a token budget record
written before the current UTC day reads as 0 after midnight.  In the
code the reset guard compares `now` with the *next* UTC midnight, which
is always in the future, and the record stores no day stamp at all, so
the stored total is returned forever.  Concretely: a record with total
90,000 (written at 23:59 UTC of day zero, i.e. 86,340,000 ms) queried at
00:01 UTC of the next day (86,460,000 ms) still reads 90,000, not 0; and
in general every parsed record reads back its stored total at every
query time. -/
theorem getDailyTokens_midnight_reset_dead :
    getDailyTokens (ReadResult.ok ⟨90000⟩) 86460000 = 90000 ∧
    ∀ (d : TokenRecord) (now : ℕ), getDailyTokens (.ok d) now = d.total := by
  exact ⟨getDailyTokens_ok ⟨90000⟩ 86460000, getDailyTokens_ok⟩

/-- Claim C6.  A charge of `t` followed by a refund of `t` (a charge of
`-t`, as in the `updateDailyTokens(key, -estimatedTokens)` call of the
POST handler) performed on the same UTC day leaves `peek`
(`getDailyTokens`) at its pre-charge value, whatever the starting record
(absent, corrupted, or parsed). -/
theorem charge_refund_restores_peek (s : ReadResult TokenRecord) (t : ℤ)
    (nowC nowR nowP : ℕ)
    (hCP : nowC / 86400000 = nowP / 86400000)
    (hRP : nowR / 86400000 = nowP / 86400000) :
    getDailyTokens (updateDailyTokens (updateDailyTokens s t nowC) (-t) nowR) nowP =
      getDailyTokens s nowP := by
  rcases s with _ | _ | d
  · rw [updateDailyTokens_absent, updateDailyTokens_ok, getDailyTokens_ok]
    show 0 + t + -t = getDailyTokens .absent nowP
    simp [getDailyTokens]
  · simp [updateDailyTokens]
  · rw [updateDailyTokens_ok, updateDailyTokens_ok, getDailyTokens_ok, getDailyTokens_ok]
    show d.total + t + -t = d.total
    omega

/-- Witness for `charge_refund_restores_peek` at a concrete input:
record with total 500, charge 7 at 1,000 ms, refund at 2,000 ms, peek at
3,000 ms (all on UTC day zero). -/
theorem charge_refund_restores_peek_witness :
    (1000 / 86400000 = 3000 / 86400000) ∧ (2000 / 86400000 = 3000 / 86400000) ∧
    getDailyTokens (updateDailyTokens (updateDailyTokens (.ok ⟨500⟩) 7 1000) (-7) 2000) 3000 =
      getDailyTokens (ReadResult.ok ⟨500⟩) 3000 :=
  ⟨by decide, by decide,
    charge_refund_restores_peek (.ok ⟨500⟩) 7 1000 2000 3000 (by decide) (by decide)⟩

/-- Claim C8.  Reads fail open: a missing and an unparseable counter file
both read as the fresh record `{ count: 0, resetAt: now + windowMs,
firstRequest: now }`, and a missing or unparseable token file reads as a
zero daily total.  (`getLimit` and `getDailyTokens` are total functions:
the `try … catch` in the source means no read error ever reaches the
caller.) -/
theorem read_fail_open (windowMs now : ℕ) :
    getLimit .corrupt windowMs now = ⟨0, now + windowMs, now⟩ ∧
    getLimit .absent windowMs now = ⟨0, now + windowMs, now⟩ ∧
    getDailyTokens .corrupt now = 0 ∧
    getDailyTokens .absent now = 0 :=
  ⟨rfl, rfl, rfl, rfl⟩


/-! ## The composite verdict -/

/-- The verdict returned by `checkLimit` is exactly `checkVerdict`
applied to the five records it reads. -/
theorem checkLimit_fst (st : Store) (u i : String) (tks : ℤ) (now : ℕ) :
    (checkLimit st u i tks now).1 =
      checkVerdict (st.limits (minuteKey u i)) (st.limits (hourKey u i))
        (st.limits (burstKey u i)) (st.tokens (tokenKey u)) (st.limits (ipKey i)) tks now := rfl

/-- The store returned by `checkLimit` is the committed store when the
verdict allows and the input store otherwise. -/
theorem checkLimit_snd (st : Store) (u i : String) (tks : ℤ) (now : ℕ) :
    (checkLimit st u i tks now).2 =
      if (checkLimit st u i tks now).1.allowed then commitUpdates st u i tks now
      else st := rfl

/-- `allowed` is true exactly when no violation was collected. -/
theorem checkVerdict_allowed_iff (mR hR bR : ReadResult LimitRecord)
    (tR : ReadResult TokenRecord) (iR : ReadResult LimitRecord) (tks : ℤ) (now : ℕ) :
    ((checkVerdict mR hR bR tR iR tks now).allowed = true ↔
      (checkVerdict mR hR bR tR iR tks now).violations = []) := by
  unfold checkVerdict
  dsimp only
  split_ifs <;> simp_all

/-- The minute message is collected exactly when the minute check fails. -/
theorem checkVerdict_minute_mem (mR hR bR : ReadResult LimitRecord)
    (tR : ReadResult TokenRecord) (iR : ReadResult LimitRecord) (tks : ℤ) (now : ℕ) :
    ("Minute limit (30/min)" ∈ (checkVerdict mR hR bR tR iR tks now).violations ↔
      (getLimit mR 60000 now).count ≥ requestsPerMinute) := by
  unfold checkVerdict
  dsimp only
  split_ifs <;> simp_all

/-- The hour message is collected exactly when the hour check fails. -/
theorem checkVerdict_hour_mem (mR hR bR : ReadResult LimitRecord)
    (tR : ReadResult TokenRecord) (iR : ReadResult LimitRecord) (tks : ℤ) (now : ℕ) :
    ("Hour limit (200/hour)" ∈ (checkVerdict mR hR bR tR iR tks now).violations ↔
      (getLimit hR 3600000 now).count ≥ requestsPerHour) := by
  unfold checkVerdict
  dsimp only
  split_ifs <;> simp_all

/-- The burst message is collected exactly when the burst check fails. -/
theorem checkVerdict_burst_mem (mR hR bR : ReadResult LimitRecord)
    (tR : ReadResult TokenRecord) (iR : ReadResult LimitRecord) (tks : ℤ) (now : ℕ) :
    ("Burst limit (5/10s)" ∈ (checkVerdict mR hR bR tR iR tks now).violations ↔
      (getLimit bR burstWindowMs now).count ≥ burstMax) := by
  unfold checkVerdict
  dsimp only
  split_ifs <;> simp_all

/-- The daily-token message is collected exactly when the projected
daily total strictly exceeds the budget. -/
theorem checkVerdict_token_mem (mR hR bR : ReadResult LimitRecord)
    (tR : ReadResult TokenRecord) (iR : ReadResult LimitRecord) (tks : ℤ) (now : ℕ) :
    ("Daily token limit (100000)" ∈ (checkVerdict mR hR bR tR iR tks now).violations ↔
      getDailyTokens tR now + tks > dailyTokens) := by
  unfold checkVerdict
  dsimp only
  split_ifs <;> simp_all

/-- The IP message is collected exactly when the IP check fails
(strict `>` against 1000). -/
theorem checkVerdict_ip_mem (mR hR bR : ReadResult LimitRecord)
    (tR : ReadResult TokenRecord) (iR : ReadResult LimitRecord) (tks : ℤ) (now : ℕ) :
    ("IP limit exceeded" ∈ (checkVerdict mR hR bR tR iR tks now).violations ↔
      (getLimit iR 3600000 now).count > 1000) := by
  unfold checkVerdict
  dsimp only
  split_ifs <;> simp_all

/-- On a daily-token violation the aggregate `retryAfter` is exactly
86400, provided the stored IP record's deadline is no further out than
one hour window (which is all `updateLimit` ever writes), so the IP
check cannot push the maximum above 86400. -/
theorem checkVerdict_token_retry (mR hR bR : ReadResult LimitRecord)
    (tR : ReadResult TokenRecord) (iR : ReadResult LimitRecord) (tks : ℤ) (now : ℕ)
    (htok : getDailyTokens tR now + tks > dailyTokens)
    (hip : ∀ r, iR = .ok r → r.resetAt ≤ now + 3600000) :
    (checkVerdict mR hR bR tR iR tks now).retryAfter = 86400 := by
  have hceil : ceilSeconds ((getLimit iR 3600000 now).resetAt - now) ≤ 86400 := by
    rcases iR with _ | _ | r
    · simp only [getLimit, ceilSeconds]
      omega
    · simp only [getLimit, ceilSeconds]
      omega
    · by_cases hx : now > r.resetAt
      · simp only [getLimit, if_pos hx, ceilSeconds]
        omega
      · have := hip r rfl
        simp only [getLimit, if_neg hx, ceilSeconds]
        omega
  unfold checkVerdict
  dsimp only
  split_ifs <;> simp_all <;> omega

/-- When the minute check fails and its suggested delay is positive, the
aggregate `retryAfter` is positive (each later check either takes a
`max` or overwrites with 86400). -/
theorem checkVerdict_minute_retry_pos (mR hR bR : ReadResult LimitRecord)
    (tR : ReadResult TokenRecord) (iR : ReadResult LimitRecord) (tks : ℤ) (now : ℕ)
    (hm : (getLimit mR 60000 now).count ≥ requestsPerMinute)
    (h1 : 1 ≤ ceilSeconds ((getLimit mR 60000 now).resetAt - now)) :
    1 ≤ (checkVerdict mR hR bR tR iR tks now).retryAfter := by
  unfold checkVerdict
  dsimp only
  split_ifs <;> simp_all <;> omega

/-- Claim C7.  For every `checkLimit` call: the verdict allows exactly
when its violation list is empty, and each of the five checks
contributes its message exactly when its own condition fails — all five
are evaluated, none short-circuits another. -/
theorem verdict_consistency (st : Store) (u i : String) (tks : ℤ) (now : ℕ) :
    ((checkLimit st u i tks now).1.allowed = true ↔
      (checkLimit st u i tks now).1.violations = []) ∧
    ("Minute limit (30/min)" ∈ (checkLimit st u i tks now).1.violations ↔
      (getLimit (st.limits (minuteKey u i)) 60000 now).count ≥ requestsPerMinute) ∧
    ("Hour limit (200/hour)" ∈ (checkLimit st u i tks now).1.violations ↔
      (getLimit (st.limits (hourKey u i)) 3600000 now).count ≥ requestsPerHour) ∧
    ("Burst limit (5/10s)" ∈ (checkLimit st u i tks now).1.violations ↔
      (getLimit (st.limits (burstKey u i)) burstWindowMs now).count ≥ burstMax) ∧
    ("Daily token limit (100000)" ∈ (checkLimit st u i tks now).1.violations ↔
      getDailyTokens (st.tokens (tokenKey u)) now + tks > dailyTokens) ∧
    ("IP limit exceeded" ∈ (checkLimit st u i tks now).1.violations ↔
      (getLimit (st.limits (ipKey i)) 3600000 now).count > 1000) := by
  rw [checkLimit_fst]
  exact ⟨checkVerdict_allowed_iff .., checkVerdict_minute_mem ..,
    checkVerdict_hour_mem .., checkVerdict_burst_mem ..,
    checkVerdict_token_mem .., checkVerdict_ip_mem ..⟩

/-- Claim C3.  A denied request consumes nothing: when the verdict is not
allowed, `checkLimit` returns the store unchanged — in particular all
five records (minute, hour, burst, daily tokens, IP) keep their
pre-request values.  The increments and the token charge happen only
under `if (limits.allowed)`. -/
theorem denied_consumes_nothing (st : Store) (u i : String) (tks : ℤ) (now : ℕ)
    (h : (checkLimit st u i tks now).1.allowed = false) :
    (checkLimit st u i tks now).2 = st := by
  rw [checkLimit_snd, h]
  simp

/-- Witness for `denied_consumes_nothing`: a store whose minute counter
is saturated (count 30) denies the request and is returned unchanged. -/
theorem denied_consumes_nothing_witness :
    (checkLimit ⟨fun _ => .ok ⟨30, 1000000, 0⟩, fun _ => .absent⟩ "u" "ip" 0 0).1.allowed
        = false ∧
    (checkLimit ⟨fun _ => .ok ⟨30, 1000000, 0⟩, fun _ => .absent⟩ "u" "ip" 0 0).2 =
      ⟨fun _ => .ok ⟨30, 1000000, 0⟩, fun _ => .absent⟩ :=
  ⟨rfl, denied_consumes_nothing ⟨fun _ => .ok ⟨30, 1000000, 0⟩, fun _ => .absent⟩
    "u" "ip" 0 0 rfl⟩

/-- Claim C5.  The daily-token check records a violation exactly when
`peek(user) + estimatedTokens` strictly exceeds 100,000 (so a charge
reaching exactly 100,000 is admitted), and any daily-token violation
fixes the verdict's `retryAfter` at 86400 (given that the stored IP
record's deadline lies within one hour window of `now`, as every record
the limiter writes does). -/
theorem daily_token_violation (st : Store) (u i : String) (tks : ℤ) (now : ℕ)
    (hip : ∀ r, st.limits (ipKey i) = .ok r → r.resetAt ≤ now + 3600000) :
    ("Daily token limit (100000)" ∈ (checkLimit st u i tks now).1.violations ↔
      getDailyTokens (st.tokens (tokenKey u)) now + tks > dailyTokens) ∧
    (getDailyTokens (st.tokens (tokenKey u)) now + tks > dailyTokens →
      (checkLimit st u i tks now).1.retryAfter = 86400) := by
  rw [checkLimit_fst]
  exact ⟨checkVerdict_token_mem .., fun htok =>
    checkVerdict_token_retry _ _ _ _ _ _ _ htok hip⟩

/-- Witness for `daily_token_violation`: stored total 99,999 plus a
2-token estimate crosses 100,000, is flagged, and reports
`retryAfter = 86400`. -/
theorem daily_token_violation_witness :
    getDailyTokens ((⟨fun _ => .absent, fun _ => .ok ⟨99999⟩⟩ : Store).tokens
        (tokenKey "u")) 0 + 2 > dailyTokens ∧
    "Daily token limit (100000)" ∈
      (checkLimit ⟨fun _ => .absent, fun _ => .ok ⟨99999⟩⟩ "u" "ip" 2 0).1.violations ∧
    (checkLimit ⟨fun _ => .absent, fun _ => .ok ⟨99999⟩⟩ "u" "ip" 2 0).1.retryAfter = 86400 := by
  have h := daily_token_violation ⟨fun _ => .absent, fun _ => .ok ⟨99999⟩⟩ "u" "ip" 2 0
    (by intro r hr; cases hr)
  have htok : getDailyTokens ((⟨fun _ => .absent, fun _ => .ok ⟨99999⟩⟩ : Store).tokens
      (tokenKey "u")) 0 + 2 > dailyTokens := by decide
  exact ⟨htok, h.1.mpr htok, h.2 htok⟩


/-! ## Spam classifier lemmas -/

/-- Each fold step of `analyze` can only increase the score. -/
theorem foldl_fst_le {α : Type} (f : (ℕ × List String) → α → (ℕ × List String))
    (hf : ∀ a x, a.1 ≤ (f a x).1) (l : List α) :
    ∀ a : ℕ × List String, a.1 ≤ (l.foldl f a).1 := by
  induction l with
  | nil => intro a; exact le_refl _
  | cons x xs ih => intro a; exact le_trans (hf a x) (ih (f a x))

/-- Fold steps of `analyze` never drop accumulated flags. -/
theorem foldl_mem_snd {α : Type} (f : (ℕ × List String) → α → (ℕ × List String))
    (hf : ∀ a x s, s ∈ a.2 → s ∈ (f a x).2) (l : List α) :
    ∀ (a : ℕ × List String) (s : String), s ∈ a.2 → s ∈ (l.foldl f a).2 := by
  induction l with
  | nil => intro a s hs; exact hs
  | cons x xs ih => intro a s hs; exact ih (f a x) s (hf a x s hs)

/-- A flag no fold step ever adds can only have come from the initial
accumulator. -/
theorem foldl_mem_snd_rev {α : Type} (f : (ℕ × List String) → α → (ℕ × List String))
    (s : String) (hf : ∀ a x, s ∈ (f a x).2 → s ∈ a.2) (l : List α) :
    ∀ a : ℕ × List String, s ∈ (l.foldl f a).2 → s ∈ a.2 := by
  induction l with
  | nil => intro a hs; exact hs
  | cons x xs ih => intro a hs; exact hf a x (ih (f a x) hs)

/-- No pattern flag is the `too_long` flag. -/
theorem pattern_flag_ne (x : String) : ("pattern_" ++ x) ≠ "too_long" := by
  intro h
  have hd := congrArg String.data h
  rw [String.data_append] at hd
  simp at hd

/-- No keyword flag is the `too_long` flag. -/
theorem keyword_flag_ne (x : String) : ("keyword_" ++ x) ≠ "too_long" := by
  intro h
  have hd := congrArg String.data h
  rw [String.data_append] at hd
  simp at hd

/-- No repetition flag is the `too_long` flag. -/
theorem repetition_flag_ne (x : String) : ("repetition_" ++ x) ≠ "too_long" := by
  intro h
  have hd := congrArg String.data h
  rw [String.data_append] at hd
  simp at hd

/-- The length stage only adds to the score and flags. -/
theorem lengthStage_mono (p : List Char) (a : ℕ × List String) :
    a.1 ≤ (lengthStage p a).1 ∧ ∀ s ∈ a.2, s ∈ (lengthStage p a).2 := by
  unfold lengthStage
  dsimp only
  split_ifs <;> refine ⟨by omega, ?_⟩ <;> intro s hs <;> simp_all

/-- The pattern stage only adds to the score and flags. -/
theorem patternStage_mono (p : List Char) (a : ℕ × List String) :
    a.1 ≤ (patternStage p a).1 ∧ ∀ s ∈ a.2, s ∈ (patternStage p a).2 := by
  unfold patternStage
  constructor
  · apply foldl_fst_le
    intro b x
    dsimp only
    split <;> (try dsimp only) <;> omega
  · intro s hs
    apply foldl_mem_snd _ _ _ _ _ hs
    intro b x s' hs'
    dsimp only
    split <;> simp_all

/-- The keyword stage only adds to the score and flags. -/
theorem keywordStage_mono (p : List Char) (a : ℕ × List String) :
    a.1 ≤ (keywordStage p a).1 ∧ ∀ s ∈ a.2, s ∈ (keywordStage p a).2 := by
  unfold keywordStage
  dsimp only
  constructor
  · apply foldl_fst_le
    intro b x
    dsimp only
    split <;> (try dsimp only) <;> omega
  · intro s hs
    apply foldl_mem_snd _ _ _ _ _ hs
    intro b x s' hs'
    dsimp only
    split <;> simp_all

/-- The entropy stage only adds to the score and flags. -/
theorem entropyStage_mono (p : List Char) (a : ℕ × List String) :
    a.1 ≤ (entropyStage p a).1 ∧ ∀ s ∈ a.2, s ∈ (entropyStage p a).2 := by
  unfold entropyStage
  split_ifs <;> refine ⟨by omega, ?_⟩ <;> intro s hs <;> simp_all

/-- The repetition stage only adds to the score and flags. -/
theorem repetitionStage_mono (p : List Char) (a : ℕ × List String) :
    a.1 ≤ (repetitionStage p a).1 ∧ ∀ s ∈ a.2, s ∈ (repetitionStage p a).2 := by
  unfold repetitionStage
  dsimp only
  split_ifs <;> refine ⟨by omega, ?_⟩ <;> intro s hs <;> simp_all


/-- Starting from an empty accumulator, the length stage adds no
`too_long` flag when the text is within 2000 characters. -/
theorem lengthStage_no_too_long (p : List Char) (h : ¬ p.length > 2000) :
    "too_long" ∉ (lengthStage p ((0 : ℕ), ([] : List String))).2 := by
  unfold lengthStage
  dsimp only
  rw [if_neg h]
  split_ifs <;> simp

/-- The pattern stage introduces no `too_long` flag. -/
theorem patternStage_rev (p : List Char) (a : ℕ × List String)
    (h : "too_long" ∈ (patternStage p a).2) : "too_long" ∈ a.2 := by
  unfold patternStage at h
  refine foldl_mem_snd_rev _ _ ?_ _ a h
  intro b ib hmem
  try dsimp only at hmem
  split at hmem
  · rcases List.mem_append.mp hmem with h1 | h1
    · exact h1
    · exact absurd (List.mem_singleton.mp h1).symm (pattern_flag_ne _)
  · exact hmem

/-- The keyword stage introduces no `too_long` flag. -/
theorem keywordStage_rev (p : List Char) (a : ℕ × List String)
    (h : "too_long" ∈ (keywordStage p a).2) : "too_long" ∈ a.2 := by
  unfold keywordStage at h
  dsimp only at h
  refine foldl_mem_snd_rev _ _ ?_ _ a h
  intro b kw hmem
  try dsimp only at hmem
  split at hmem
  · rcases List.mem_append.mp hmem with h1 | h1
    · exact h1
    · exact absurd (List.mem_singleton.mp h1).symm (keyword_flag_ne _)
  · exact hmem

/-- The entropy stage introduces no `too_long` flag. -/
theorem entropyStage_rev (p : List Char) (a : ℕ × List String)
    (h : "too_long" ∈ (entropyStage p a).2) : "too_long" ∈ a.2 := by
  unfold entropyStage at h
  split at h
  · rcases List.mem_append.mp h with h1 | h1
    · exact h1
    · simp at h1
  · exact h

/-- The repetition stage introduces no `too_long` flag. -/
theorem repetitionStage_rev (p : List Char) (a : ℕ × List String)
    (h : "too_long" ∈ (repetitionStage p a).2) : "too_long" ∈ a.2 := by
  unfold repetitionStage at h
  try dsimp only at h
  split at h
  · rcases List.mem_append.mp h with h1 | h1
    · exact h1
    · exact absurd (List.mem_singleton.mp h1).symm (repetition_flag_ne _)
  · exact h

/-- Claim C9.  Any input shorter than 2 characters gets +20 with flag
`too_short` (so its total score is at least 20, the other checks only
adding to it), and for every input the final verdict is
`isSpam = (score > 40)`. -/
theorem spam_short_input (p : String) (h : p.length < 2) :
    (20 ≤ (analyze p).score ∧ "too_short" ∈ (analyze p).flags) ∧
    ∀ q : String, ((analyze q).isSpam = true ↔ 40 < (analyze q).score) := by
  constructor
  · have h1 : p.data.length < 2 := h
    have h2 : ¬ p.data.length > 2000 := by omega
    have hlen : lengthStage p.data (0, []) = (0 + 20, [] ++ ["too_short"]) := by
      unfold lengthStage
      dsimp only
      rw [if_pos h1, if_neg h2]
    have hsc : (analyze p).score = (repetitionStage p.data (entropyStage p.data
        (keywordStage p.data (patternStage p.data (lengthStage p.data (0, [])))))).1 := rfl
    have hfl : (analyze p).flags = (repetitionStage p.data (entropyStage p.data
        (keywordStage p.data (patternStage p.data (lengthStage p.data (0, [])))))).2 := rfl
    have m1 := patternStage_mono p.data (lengthStage p.data (0, []))
    have m2 := keywordStage_mono p.data (patternStage p.data (lengthStage p.data (0, [])))
    have m3 := entropyStage_mono p.data (keywordStage p.data (patternStage p.data
      (lengthStage p.data (0, []))))
    have m4 := repetitionStage_mono p.data (entropyStage p.data (keywordStage p.data
      (patternStage p.data (lengthStage p.data (0, [])))))
    constructor
    · rw [hsc]
      have : (lengthStage p.data (0, [])).1 = 20 := by rw [hlen]
      calc (20 : ℕ) = (lengthStage p.data (0, [])).1 := this.symm
        _ ≤ _ := le_trans m1.1 (le_trans m2.1 (le_trans m3.1 m4.1))
    · rw [hfl]
      apply m4.2
      apply m3.2
      apply m2.2
      apply m1.2
      rw [hlen]
      simp
  · intro q
    have : (analyze q).isSpam = decide (40 < (analyze q).score) := rfl
    rw [this]
    simp

/-- Witness for `spam_short_input` at the empty prompt. -/
theorem spam_short_input_witness :
    ("".length < 2) ∧ 20 ≤ (analyze "").score ∧ "too_short" ∈ (analyze "").flags ∧
    ((analyze "").isSpam = true ↔ 40 < (analyze "").score) := by
  have h := spam_short_input "" (by decide)
  exact ⟨by decide, h.1.1, h.1.2, h.2 ""⟩

/-- Claim C10.  `sanitizeInput` truncates to 2000 characters before
trimming, so every prompt reaching the classifier through the POST
handler has length at most 2000, and the `too_long` branch of `analyze`
(which requires length strictly above 2000) can never fire:
`analyze(sanitizeInput(x))` carries no `too_long` flag for any input. -/
theorem sanitized_never_too_long (x : String) :
    (sanitizeInput x).length ≤ 2000 ∧
    "too_long" ∉ (analyze (sanitizeInput x)).flags := by
  have dlen : ∀ (l : List Char), ((l.dropWhile isJsSpace)).length ≤ l.length :=
    fun l => ((List.dropWhile_suffix _).sublist).length_le
  have hlen : (sanitizeInput x).length ≤ 2000 := by
    show (sanitizeInput x).data.length ≤ 2000
    unfold sanitizeInput
    dsimp only
    calc ((((x.data.filter fun c => !(c == '<' || c == '>')).take 2000).dropWhile
            isJsSpace).reverse.dropWhile isJsSpace).reverse.length
        ≤ (((x.data.filter fun c => !(c == '<' || c == '>')).take 2000).dropWhile
            isJsSpace).reverse.length := by
          rw [List.length_reverse]
          exact dlen _
      _ ≤ ((x.data.filter fun c => !(c == '<' || c == '>')).take 2000).length := by
          rw [List.length_reverse]
          exact dlen _
      _ ≤ 2000 := by
          rw [List.length_take]
          omega
  refine ⟨hlen, fun hmem => ?_⟩
  have hfl : (analyze (sanitizeInput x)).flags =
      (repetitionStage (sanitizeInput x).data (entropyStage (sanitizeInput x).data
        (keywordStage (sanitizeInput x).data (patternStage (sanitizeInput x).data
          (lengthStage (sanitizeInput x).data (0, [])))))).2 := rfl
  rw [hfl] at hmem
  have h2000 : ¬ (sanitizeInput x).data.length > 2000 := by
    have : (sanitizeInput x).data.length ≤ 2000 := hlen
    omega
  exact lengthStage_no_too_long (sanitizeInput x).data h2000
    (patternStage_rev _ _ (keywordStage_rev _ _ (entropyStage_rev _ _
      (repetitionStage_rev _ _ hmem))))


/-! ## Key and store lemmas -/

/-- Two strings whose data lists start with different characters differ. -/
theorem ne_of_head {a b : String} {c d : Char}
    (ha : a.data.head? = some c) (hb : b.data.head? = some d) (h : c ≠ d) : a ≠ b := by
  intro hEq
  rw [hEq, hb] at ha
  exact h (Option.some.inj ha).symm

/-- A minute key always starts with the letter m. -/
theorem minuteKey_head (u i : String) : (minuteKey u i).data.head? = some 'm' := by
  show ("minute_" ++ u ++ "_" ++ i).data.head? = some 'm'
  rw [String.data_append, String.data_append, String.data_append]
  rfl

/-- An hour key always starts with the letter h. -/
theorem hourKey_head (u i : String) : (hourKey u i).data.head? = some 'h' := by
  show ("hour_" ++ u ++ "_" ++ i).data.head? = some 'h'
  rw [String.data_append, String.data_append, String.data_append]
  rfl

/-- A burst key always starts with the letter b. -/
theorem burstKey_head (u i : String) : (burstKey u i).data.head? = some 'b' := by
  show ("burst_" ++ u ++ "_" ++ i).data.head? = some 'b'
  rw [String.data_append, String.data_append, String.data_append]
  rfl

/-- An IP key always starts with the letter i. -/
theorem ipKey_head (i : String) : (ipKey i).data.head? = some 'i' := by
  show ("ip_" ++ i).data.head? = some 'i'
  rw [String.data_append]
  rfl

/-- For one IP, distinct users have distinct minute keys. -/
theorem minuteKey_inj {u u' i : String} (h : minuteKey u i = minuteKey u' i) : u = u' := by
  have hd := congrArg String.data h
  simp only [minuteKey, String.data_append] at hd
  exact String.ext (List.append_cancel_left (List.append_cancel_right
    (List.append_cancel_right hd)))

/-- For one IP, distinct users have distinct hour keys. -/
theorem hourKey_inj {u u' i : String} (h : hourKey u i = hourKey u' i) : u = u' := by
  have hd := congrArg String.data h
  simp only [hourKey, String.data_append] at hd
  exact String.ext (List.append_cancel_left (List.append_cancel_right
    (List.append_cancel_right hd)))

/-- For one IP, distinct users have distinct burst keys. -/
theorem burstKey_inj {u u' i : String} (h : burstKey u i = burstKey u' i) : u = u' := by
  have hd := congrArg String.data h
  simp only [burstKey, String.data_append] at hd
  exact String.ext (List.append_cancel_left (List.append_cancel_right
    (List.append_cancel_right hd)))

/-- Distinct users have distinct token keys. -/
theorem tokenKey_inj {u u' : String} (h : tokenKey u = tokenKey u') : u = u' := by
  have hd := congrArg String.data h
  simp only [tokenKey, String.data_append] at hd
  exact String.ext (List.append_cancel_left hd)

/-- Reading the key just written returns the written record. -/
theorem setLimit_limits_self (st : Store) (k : String) (r : LimitRecord) :
    (st.setLimit k r).limits k = .ok r := by
  simp [Store.setLimit]

/-- Writing one counter key leaves every other counter key unchanged. -/
theorem setLimit_limits_ne (st : Store) (k k' : String) (r : LimitRecord) (h : k' ≠ k) :
    (st.setLimit k r).limits k' = st.limits k' := by
  simp [Store.setLimit, h]

/-- Writing a counter file does not touch the token files. -/
theorem setLimit_tokens (st : Store) (k : String) (r : LimitRecord) :
    (st.setLimit k r).tokens = st.tokens := rfl

/-- Writing a token file does not touch the counter files. -/
theorem setTokens_limits (st : Store) (k : String) (r : ReadResult TokenRecord) :
    (st.setTokens k r).limits = st.limits := rfl

/-- Reading the token key just written returns the written value. -/
theorem setTokens_tokens_self (st : Store) (k : String) (r : ReadResult TokenRecord) :
    (st.setTokens k r).tokens k = r := by
  simp [Store.setTokens]

/-- Writing one token key leaves every other token key unchanged. -/
theorem setTokens_tokens_ne (st : Store) (k k' : String) (r : ReadResult TokenRecord)
    (h : k' ≠ k) : (st.setTokens k r).tokens k' = st.tokens k' := by
  simp [Store.setTokens, h]

/-- The counter files after a commit: the IP, burst, hour and minute
keys of the call hold their updated records (the five keys are pairwise
distinct, so each re-read before write saw the original value), every
other key is untouched. -/
theorem commitUpdates_limits (st : Store) (u i : String) (tks : ℤ) (now : ℕ) (k : String) :
    (commitUpdates st u i tks now).limits k =
      if k = ipKey i then .ok (updateLimit (st.limits (ipKey i)) 3600000 now)
      else if k = burstKey u i then .ok (updateLimit (st.limits (burstKey u i)) burstWindowMs now)
      else if k = hourKey u i then .ok (updateLimit (st.limits (hourKey u i)) 3600000 now)
      else if k = minuteKey u i then .ok (updateLimit (st.limits (minuteKey u i)) 60000 now)
      else st.limits k := by
  have hhm : hourKey u i ≠ minuteKey u i :=
    ne_of_head (hourKey_head u i) (minuteKey_head u i) (by decide)
  have hbm : burstKey u i ≠ minuteKey u i :=
    ne_of_head (burstKey_head u i) (minuteKey_head u i) (by decide)
  have hbh : burstKey u i ≠ hourKey u i :=
    ne_of_head (burstKey_head u i) (hourKey_head u i) (by decide)
  have him : ipKey i ≠ minuteKey u i :=
    ne_of_head (ipKey_head i) (minuteKey_head u i) (by decide)
  have hih : ipKey i ≠ hourKey u i :=
    ne_of_head (ipKey_head i) (hourKey_head u i) (by decide)
  have hib : ipKey i ≠ burstKey u i :=
    ne_of_head (ipKey_head i) (burstKey_head u i) (by decide)
  unfold commitUpdates
  simp only [Store.setLimit, Store.setTokens]
  simp only [hhm, hbm, hbh, him, hih, hib, if_false]

/-- The token files after a commit: only the user token key changes. -/
theorem commitUpdates_tokens (st : Store) (u i : String) (tks : ℤ) (now : ℕ) (k : String) :
    (commitUpdates st u i tks now).tokens k =
      if k = tokenKey u then updateDailyTokens (st.tokens (tokenKey u)) tks now
      else st.tokens k := by
  unfold commitUpdates
  simp only [Store.setLimit, Store.setTokens]

end MaxMovies

namespace MaxMovies

/-- Incrementing an absent counter starts a fresh window with count 1. -/
theorem updateLimit_absent (w now : ℕ) : updateLimit .absent w now = ⟨1, now + w, now⟩ := by
  unfold updateLimit getLimit
  dsimp only
  rw [if_neg (by omega)]

/-- Reading a stored record inside its window returns it unchanged. -/
theorem getLimit_ok_live (c r f w now : ℕ) (h : now ≤ r) :
    getLimit (.ok ⟨c, r, f⟩) w now = ⟨c, r, f⟩ := by
  unfold getLimit
  dsimp only
  rw [if_neg (by omega)]

/-- Incrementing a stored record inside its window adds one to the
count and keeps the window. -/
theorem updateLimit_ok_live (c r f w now : ℕ) (h : now ≤ r) :
    updateLimit (.ok ⟨c, r, f⟩) w now = ⟨c + 1, r, f⟩ := by
  unfold updateLimit
  rw [getLimit_ok_live c r f w now h]
  dsimp only
  rw [if_neg (by omega)]

/-- When the verdict denies, the store is returned unchanged. -/
theorem checkLimit_not_allowed (st : Store) (u i : String) (tks : ℤ) (now : ℕ)
    (h : (checkLimit st u i tks now).1.allowed = false) :
    (checkLimit st u i tks now).2 = st := by
  rw [checkLimit_snd, h]
  simp

/-- When the verdict allows, the returned store is the committed one. -/
theorem checkLimit_allowed_snd (st : Store) (u i : String) (tks : ℤ) (now : ℕ)
    (h : (checkLimit st u i tks now).1.allowed = true) :
    (checkLimit st u i tks now).2 = commitUpdates st u i tks now := by
  rw [checkLimit_snd, h]
  simp

/-- When all five conditions pass, the verdict allows. -/
theorem checkVerdict_allowed_of (mR hR bR : ReadResult LimitRecord)
    (tR : ReadResult TokenRecord) (iR : ReadResult LimitRecord) (tks : ℤ) (now : ℕ)
    (h1 : ¬ (getLimit mR 60000 now).count ≥ requestsPerMinute)
    (h2 : ¬ (getLimit hR 3600000 now).count ≥ requestsPerHour)
    (h3 : ¬ (getLimit bR burstWindowMs now).count ≥ burstMax)
    (h4 : ¬ getDailyTokens tR now + tks > dailyTokens)
    (h5 : ¬ (getLimit iR 3600000 now).count > 1000) :
    (checkVerdict mR hR bR tR iR tks now).allowed = true := by
  unfold checkVerdict
  dsimp only
  rw [if_neg h1, if_neg h2, if_neg h3, if_neg h4, if_neg h5]

/-- A verdict with any violation does not allow. -/
theorem checkVerdict_not_allowed_of_mem {mR hR bR : ReadResult LimitRecord}
    {tR : ReadResult TokenRecord} {iR : ReadResult LimitRecord} {tks : ℤ} {now : ℕ}
    {s : String} (hmem : s ∈ (checkVerdict mR hR bR tR iR tks now).violations) :
    (checkVerdict mR hR bR tR iR tks now).allowed = false := by
  rcases hb : (checkVerdict mR hR bR tR iR tks now).allowed with _ | _
  · rfl
  · exfalso
    have := (checkVerdict_allowed_iff mR hR bR tR iR tks now).mp hb
    rw [this] at hmem
    exact List.not_mem_nil _ hmem


/-- A request from a fresh user with a zero token estimate is admitted
whenever the IP counter reads at most 1000. -/
theorem checkLimit_fresh_allowed (st : Store) (u i : String) (now : ℕ)
    (hu : freshUser st u i)
    (hip : (getLimit (st.limits (ipKey i)) 3600000 now).count ≤ 1000) :
    (checkLimit st u i 0 now).1.allowed = true := by
  rw [checkLimit_fst, hu.1, hu.2.1, hu.2.2.1, hu.2.2.2]
  apply checkVerdict_allowed_of
  · simp [getLimit, requestsPerMinute]
  · simp [getLimit, requestsPerHour]
  · simp [getLimit, burstMax]
  · simp [getDailyTokens, dailyTokens]
  · omega

/-- A checkLimit call by one user leaves every other user fresh. -/
theorem checkLimit_preserves_fresh (st : Store) (u i : String) (tks : ℤ) (now : ℕ)
    (u' : String) (hne : u' ≠ u) (hu' : freshUser st u' i) :
    freshUser (checkLimit st u i tks now).2 u' i := by
  rcases hb : (checkLimit st u i tks now).1.allowed with _ | _
  · rw [checkLimit_not_allowed _ _ _ _ _ hb]
    exact hu'
  · rw [checkLimit_allowed_snd _ _ _ _ _ hb]
    refine ⟨?_, ?_, ?_, ?_⟩
    · have h1 : minuteKey u' i ≠ ipKey i :=
        ne_of_head (minuteKey_head u' i) (ipKey_head i) (by decide)
      have h2 : minuteKey u' i ≠ burstKey u i :=
        ne_of_head (minuteKey_head u' i) (burstKey_head u i) (by decide)
      have h3 : minuteKey u' i ≠ hourKey u i :=
        ne_of_head (minuteKey_head u' i) (hourKey_head u i) (by decide)
      have h4 : minuteKey u' i ≠ minuteKey u i := fun h => hne (minuteKey_inj h)
      rw [commitUpdates_limits, if_neg h1, if_neg h2, if_neg h3, if_neg h4]
      exact hu'.1
    · have h1 : hourKey u' i ≠ ipKey i :=
        ne_of_head (hourKey_head u' i) (ipKey_head i) (by decide)
      have h2 : hourKey u' i ≠ burstKey u i :=
        ne_of_head (hourKey_head u' i) (burstKey_head u i) (by decide)
      have h3 : hourKey u' i ≠ hourKey u i := fun h => hne (hourKey_inj h)
      have h4 : hourKey u' i ≠ minuteKey u i :=
        ne_of_head (hourKey_head u' i) (minuteKey_head u i) (by decide)
      rw [commitUpdates_limits, if_neg h1, if_neg h2, if_neg h3, if_neg h4]
      exact hu'.2.1
    · have h1 : burstKey u' i ≠ ipKey i :=
        ne_of_head (burstKey_head u' i) (ipKey_head i) (by decide)
      have h2 : burstKey u' i ≠ burstKey u i := fun h => hne (burstKey_inj h)
      have h3 : burstKey u' i ≠ hourKey u i :=
        ne_of_head (burstKey_head u' i) (hourKey_head u i) (by decide)
      have h4 : burstKey u' i ≠ minuteKey u i :=
        ne_of_head (burstKey_head u' i) (minuteKey_head u i) (by decide)
      rw [commitUpdates_limits, if_neg h1, if_neg h2, if_neg h3, if_neg h4]
      exact hu'.2.2.1
    · have h1 : tokenKey u' ≠ tokenKey u := fun h => hne (tokenKey_inj h)
      rw [commitUpdates_tokens, if_neg h1]
      exact hu'.2.2.2

/-- Running no requests changes nothing. -/
theorem runRequests_nil (st : Store) (i : String) (tks : ℤ) :
    runRequests st i tks [] = (st, []) := rfl

/-- Unfolding one step of a request run. -/
theorem runRequests_cons (st : Store) (i : String) (tks : ℤ) (u : String) (t : ℕ)
    (rest : List (String × ℕ)) :
    runRequests st i tks ((u, t) :: rest) =
      ((runRequests (checkLimit st u i tks t).2 i tks rest).1,
        (checkLimit st u i tks t).1 ::
          (runRequests (checkLimit st u i tks t).2 i tks rest).2) := rfl

/-- A run returns one verdict per request. -/
theorem runRequests_length (st : Store) (i : String) (tks : ℤ)
    (reqs : List (String × ℕ)) :
    (runRequests st i tks reqs).2.length = reqs.length := by
  induction reqs generalizing st with
  | nil => rfl
  | cons p rest ih =>
    rcases p with ⟨u, t⟩
    rw [runRequests_cons]
    simp [ih]

/-- Running requests from pairwise-distinct fresh users against a live
IP window record: as long as the running IP count stays at most 1001
in total, every request is admitted, the IP count advances by one per
request, and users not in the list stay fresh. -/
theorem run_fresh_users (i : String) (rst f : ℕ) (reqs : List (String × ℕ)) :
    ∀ (st : Store) (c : ℕ),
    (∀ p ∈ reqs, freshUser st p.1 i) →
    List.Pairwise (fun a b => a ≠ b) (reqs.map Prod.fst) →
    (∀ p ∈ reqs, p.2 ≤ rst) →
    st.limits (ipKey i) = .ok ⟨c, rst, f⟩ →
    c + reqs.length ≤ 1001 →
    (∀ v ∈ (runRequests st i 0 reqs).2, v.allowed = true) ∧
    (runRequests st i 0 reqs).1.limits (ipKey i) = .ok ⟨c + reqs.length, rst, f⟩ ∧
    (∀ u', freshUser st u' i → (∀ p ∈ reqs, u' ≠ p.1) →
      freshUser (runRequests st i 0 reqs).1 u' i) := by
  induction reqs with
  | nil =>
    intro st c hf hd ht hip hc
    refine ⟨?_, ?_, ?_⟩
    · intro v hv
      rw [runRequests_nil] at hv
      exact absurd hv (List.not_mem_nil v)
    · rw [runRequests_nil]
      simpa using hip
    · intro u' h _
      rw [runRequests_nil]
      exact h
  | cons p rest ih =>
    rcases p with ⟨u, t⟩
    intro st c hf hd ht hip hc
    have hfu : freshUser st u i := hf (u, t) (List.mem_cons_self _ _)
    have htu : t ≤ rst := ht (u, t) (List.mem_cons_self _ _)
    have hgl : getLimit (st.limits (ipKey i)) 3600000 t = ⟨c, rst, f⟩ := by
      rw [hip]
      exact getLimit_ok_live c rst f 3600000 t htu
    have hcle : (getLimit (st.limits (ipKey i)) 3600000 t).count ≤ 1000 := by
      rw [hgl]
      show c ≤ 1000
      simp at hc
      omega
    have hallow := checkLimit_fresh_allowed st u i t hfu hcle
    have hsnd := checkLimit_allowed_snd st u i 0 t hallow
    have hip2 : (checkLimit st u i 0 t).2.limits (ipKey i) = .ok ⟨c + 1, rst, f⟩ := by
      rw [hsnd, commitUpdates_limits, if_pos rfl, hip,
        updateLimit_ok_live c rst f 3600000 t htu]
    have hdc : (∀ (a : String) (x : ℕ), (a, x) ∈ rest → ¬ u = a) ∧
        List.Pairwise (fun a b => ¬ a = b) (rest.map Prod.fst) := by simpa using hd
    have hfresh2 : ∀ q ∈ rest, freshUser (checkLimit st u i 0 t).2 q.1 i := by
      intro q hq
      rcases q with ⟨qu, qt⟩
      refine checkLimit_preserves_fresh st u i 0 t qu ?_
        (hf (qu, qt) (List.mem_cons_of_mem _ hq))
      intro hqe
      exact hdc.1 qu qt hq hqe.symm
    have hrest := ih (checkLimit st u i 0 t).2 (c + 1) hfresh2 hdc.2
      (fun q hq => ht q (List.mem_cons_of_mem _ hq)) hip2 (by simp at hc; omega)
    refine ⟨?_, ?_, ?_⟩
    · intro v hv
      rw [runRequests_cons] at hv
      rcases List.mem_cons.mp hv with hv | hv
      · rw [hv]
        exact hallow
      · exact hrest.1 v hv
    · rw [runRequests_cons]
      dsimp only
      rw [hrest.2.1]
      have : c + 1 + rest.length = c + (rest.length + 1) := by omega
      rw [this]
      simp
    · intro u' hu' hnotin
      rw [runRequests_cons]
      dsimp only
      refine hrest.2.2 u' ?_ (fun q hq => hnotin q (List.mem_cons_of_mem _ hq))
      exact checkLimit_preserves_fresh st u i 0 t u'
        (hnotin (u, t) (List.mem_cons_self _ _)) hu'


/-- A request is denied with the IP message when the IP counter reads
strictly above 1000. -/
theorem checkLimit_ip_denied (st : Store) (u i : String) (tks : ℤ) (now : ℕ)
    (hip : (getLimit (st.limits (ipKey i)) 3600000 now).count > 1000) :
    (checkLimit st u i tks now).1.allowed = false ∧
    "IP limit exceeded" ∈ (checkLimit st u i tks now).1.violations := by
  rw [checkLimit_fst]
  have hmem := (checkVerdict_ip_mem (st.limits (minuteKey u i)) (st.limits (hourKey u i))
    (st.limits (burstKey u i)) (st.tokens (tokenKey u)) (st.limits (ipKey i)) tks now).mpr hip
  exact ⟨checkVerdict_not_allowed_of_mem hmem, hmem⟩

/-- From an absent IP record, a run of `1 + n` requests (`n ≤ 1000`)
from pairwise-distinct fresh users within the hour window started by the
first request is admitted in full, leaving the IP count at `1 + n`. -/
theorem run_from_scratch (i u1 : String) (t1 : ℕ) (rest : List (String × ℕ)) (st0 : Store)
    (h0ip : st0.limits (ipKey i) = .absent)
    (hfresh : ∀ p ∈ (u1, t1) :: rest, freshUser st0 p.1 i)
    (hdist : List.Pairwise (fun a b => a ≠ b) (((u1, t1) :: rest).map Prod.fst))
    (htimes : ∀ p ∈ rest, p.2 ≤ t1 + 3600000)
    (hrestlen : rest.length ≤ 1000) :
    (∀ v ∈ (runRequests st0 i 0 ((u1, t1) :: rest)).2, v.allowed = true) ∧
    (runRequests st0 i 0 ((u1, t1) :: rest)).1.limits (ipKey i) =
      .ok ⟨1 + rest.length, t1 + 3600000, t1⟩ ∧
    (∀ u', freshUser st0 u' i → (∀ p ∈ (u1, t1) :: rest, u' ≠ p.1) →
      freshUser (runRequests st0 i 0 ((u1, t1) :: rest)).1 u' i) := by
  have hfu1 : freshUser st0 u1 i := hfresh (u1, t1) (List.mem_cons_self _ _)
  have hcle : (getLimit (st0.limits (ipKey i)) 3600000 t1).count ≤ 1000 := by
    rw [h0ip]
    show (0 : ℕ) ≤ 1000
    omega
  have hallow := checkLimit_fresh_allowed st0 u1 i t1 hfu1 hcle
  have hsnd := checkLimit_allowed_snd st0 u1 i 0 t1 hallow
  have hip1 : (checkLimit st0 u1 i 0 t1).2.limits (ipKey i) =
      .ok ⟨1, t1 + 3600000, t1⟩ := by
    rw [hsnd, commitUpdates_limits, if_pos rfl, h0ip, updateLimit_absent]
  have hdc : (∀ (a : String) (x : ℕ), (a, x) ∈ rest → ¬ u1 = a) ∧
      List.Pairwise (fun a b => ¬ a = b) (rest.map Prod.fst) := by simpa using hdist
  have hfresh2 : ∀ q ∈ rest, freshUser (checkLimit st0 u1 i 0 t1).2 q.1 i := by
    intro q hq
    rcases q with ⟨qu, qt⟩
    refine checkLimit_preserves_fresh st0 u1 i 0 t1 qu ?_
      (hfresh (qu, qt) (List.mem_cons_of_mem _ hq))
    intro hqe
    exact hdc.1 qu qt hq hqe.symm
  have hrun := run_fresh_users i (t1 + 3600000) t1 rest (checkLimit st0 u1 i 0 t1).2 1
    hfresh2 hdc.2 htimes hip1 (by omega)
  refine ⟨?_, ?_, ?_⟩
  · intro v hv
    rw [runRequests_cons] at hv
    rcases List.mem_cons.mp hv with hv | hv
    · rw [hv]
      exact hallow
    · exact hrun.1 v hv
  · rw [runRequests_cons]
    exact hrun.2.1
  · intro u' hu' hnotin
    rw [runRequests_cons]
    refine hrun.2.2 u' ?_ (fun q hq => hnotin q (List.mem_cons_of_mem _ hq))
    exact checkLimit_preserves_fresh st0 u1 i 0 t1 u'
      (hnotin (u1, t1) (List.mem_cons_self _ _)) hu'

/-- Every demo user id starts with the letter u. -/
theorem demoUser_head (n : ℕ) : (demoUser n).data.head? = some 'u' := rfl

/-- Demo user ids are pairwise distinct (their lengths differ). -/
theorem demoUser_inj : Function.Injective demoUser := by
  intro a b h
  have hd := congrArg String.data h
  simp only [demoUser] at hd
  have := congrArg List.length hd
  simpa using this

/-- The users of the demo requests, in order. -/
theorem demoReqs_fst : demoReqs.map Prod.fst = (List.range 1000).map demoUser := by
  simp [demoReqs, List.map_map]

/-- The user z followed by the 1000 demo users are pairwise distinct. -/
theorem demo_pairwise :
    List.Pairwise (fun a b => a ≠ b) ((("z", 0) :: demoReqs).map Prod.fst) := by
  rw [List.map_cons, demoReqs_fst]
  refine List.pairwise_cons.mpr ⟨?_, ?_⟩
  · intro s hs
    rcases List.mem_map.mp hs with ⟨n, _, hn⟩
    rw [← hn]
    exact ne_of_head (by rfl) (demoUser_head n) (by decide)
  · exact ((List.nodup_range 1000).map demoUser_inj : _)


/-- All demo requests happen at time 0, inside the hour window. -/
theorem demo_times : ∀ p ∈ demoReqs, p.2 ≤ 0 + 3600000 := by
  intro p hp
  rcases List.mem_map.mp hp with ⟨n, _, rfl⟩
  simp

/-- Claim C2 (amended).  Starting from a fresh per-IP counter, a
sequence of 1001 requests from one IP within one hour, spread over
pairwise-distinct users with no stored state (so no per-user limit
binds), is admitted in full — and a 1002nd request from that IP within
the window is denied by the IP check.  The source compares the
pre-increment count with strict `>` against 1000, so counts 0 through
1000 pass: the check admits exactly 1001 requests, not 1000, before
refusing the 1002nd. -/
theorem ip_window_boundary (i u1 uX : String) (t1 tX : ℕ) (rest : List (String × ℕ))
    (st0 : Store)
    (h0ip : st0.limits (ipKey i) = .absent)
    (hfresh : ∀ p ∈ (u1, t1) :: rest, freshUser st0 p.1 i)
    (hdist : List.Pairwise (fun a b => a ≠ b) (((u1, t1) :: rest).map Prod.fst))
    (htimes : ∀ p ∈ rest, p.2 ≤ t1 + 3600000)
    (htX : tX ≤ t1 + 3600000)
    (hlen : rest.length = 1000) :
    (∀ v ∈ (runRequests st0 i 0 ((u1, t1) :: rest)).2, v.allowed = true) ∧
    (runRequests st0 i 0 ((u1, t1) :: rest)).2.length = 1001 ∧
    (checkLimit (runRequests st0 i 0 ((u1, t1) :: rest)).1 uX i 0 tX).1.allowed = false ∧
    "IP limit exceeded" ∈
      (checkLimit (runRequests st0 i 0 ((u1, t1) :: rest)).1 uX i 0 tX).1.violations := by
  have h := run_from_scratch i u1 t1 rest st0 h0ip hfresh hdist htimes (le_of_eq hlen)
  have hipfin : (runRequests st0 i 0 ((u1, t1) :: rest)).1.limits (ipKey i) =
      .ok ⟨1001, t1 + 3600000, t1⟩ := by
    rw [h.2.1, hlen]
  have hbig : (getLimit ((runRequests st0 i 0 ((u1, t1) :: rest)).1.limits (ipKey i))
      3600000 tX).count > 1000 := by
    rw [hipfin, getLimit_ok_live _ _ _ _ _ htX]
    show (1001 : ℕ) > 1000
    omega
  have hden := checkLimit_ip_denied _ uX i 0 tX hbig
  refine ⟨h.1, ?_, hden.1, hden.2⟩
  rw [runRequests_length]
  simp [hlen]

/-- Counterexample to claim C2 as stated.  The claim predicts the
1001st request from one IP is denied; running 1001 requests (users
`z`, `u`, `uu`, …, each fresh and distinct, all at time 0) from the
empty store admits every one of them, including the 1001st. -/
theorem ip_claim_counterexample :
    (runRequests demoStore "ip" 0 (("z", 0) :: demoReqs)).2.length = 1001 ∧
    ∀ v ∈ (runRequests demoStore "ip" 0 (("z", 0) :: demoReqs)).2, v.allowed = true := by
  have h := run_from_scratch "ip" "z" 0 demoReqs demoStore rfl
    (fun p _ => ⟨rfl, rfl, rfl, rfl⟩) demo_pairwise demo_times (by simp [demoReqs])
  refine ⟨?_, h.1⟩
  rw [runRequests_length]
  simp [demoReqs]

/-- Witness for `ip_window_boundary` at the concrete 1001-request run
and the denied 1002nd request from user `v`. -/
theorem ip_window_boundary_witness :
    (∀ v ∈ (runRequests demoStore "ip" 0 (("z", 0) :: demoReqs)).2, v.allowed = true) ∧
    (checkLimit (runRequests demoStore "ip" 0 (("z", 0) :: demoReqs)).1 "v" "ip" 0 0).1.allowed
        = false ∧
    "IP limit exceeded" ∈
      (checkLimit (runRequests demoStore "ip" 0 (("z", 0) :: demoReqs)).1 "v" "ip" 0 0).1.violations := by
  have h := ip_window_boundary "ip" "z" "v" 0 0 demoReqs demoStore rfl
    (fun p _ => ⟨rfl, rfl, rfl, rfl⟩) demo_pairwise demo_times (by omega) (by simp [demoReqs])
  exact ⟨h.1, h.2.2.1, h.2.2.2⟩


/-- A read of a counter bounded by `k` is still bounded by `k`. -/
theorem getLimit_count_le (s : ReadResult LimitRecord) (w now k : ℕ)
    (h : s = .absent ∨ ∃ r, s = .ok r ∧ r.count ≤ k) :
    (getLimit s w now).count ≤ k := by
  rcases h with h | ⟨r, hs, hc⟩
  · subst h
    show (0 : ℕ) ≤ k
    omega
  · subst hs
    unfold getLimit
    dsimp only
    split
    · show (0 : ℕ) ≤ k
      omega
    · exact hc

/-- An increment of a counter bounded by `k` is bounded by `k + 1`. -/
theorem updateLimit_count_le (s : ReadResult LimitRecord) (w now k : ℕ)
    (h : s = .absent ∨ ∃ r, s = .ok r ∧ r.count ≤ k) :
    (updateLimit s w now).count ≤ k + 1 := by
  have hg := getLimit_count_le s w now k h
  unfold updateLimit
  dsimp only
  split
  · show (1 : ℕ) ≤ k + 1
    omega
  · dsimp only
    omega

/-- On an admitted request the minute record of the pair is updated. -/
theorem checkLimit_minute_slot (st : Store) (u i : String) (tks : ℤ) (now : ℕ)
    (h : (checkLimit st u i tks now).1.allowed = true) :
    (checkLimit st u i tks now).2.limits (minuteKey u i) =
      .ok (updateLimit (st.limits (minuteKey u i)) 60000 now) := by
  have h1 : minuteKey u i ≠ ipKey i :=
    ne_of_head (minuteKey_head u i) (ipKey_head i) (by decide)
  have h2 : minuteKey u i ≠ burstKey u i :=
    ne_of_head (minuteKey_head u i) (burstKey_head u i) (by decide)
  have h3 : minuteKey u i ≠ hourKey u i :=
    ne_of_head (minuteKey_head u i) (hourKey_head u i) (by decide)
  rw [checkLimit_allowed_snd _ _ _ _ _ h, commitUpdates_limits,
    if_neg h1, if_neg h2, if_neg h3, if_pos rfl]

/-- While a minute counter bounded by `k` has room for the whole run
(`k` plus the number of requests at most 30), no verdict of the run
carries the minute violation — whether or not the requests are
admitted, since only admitted requests increment the counter. -/
theorem run_minute_bound (u i : String) (tks : ℤ) (ts : List ℕ) :
    ∀ (st : Store) (k : ℕ),
    (st.limits (minuteKey u i) = .absent ∨
      ∃ r, st.limits (minuteKey u i) = .ok r ∧ r.count ≤ k) →
    k + ts.length ≤ 30 →
    ∀ v ∈ (runRequests st i tks (ts.map (fun t => (u, t)))).2,
      "Minute limit (30/min)" ∉ v.violations := by
  induction ts with
  | nil =>
    intro st k _ _ v hv
    rw [List.map_nil, runRequests_nil] at hv
    exact absurd hv (List.not_mem_nil v)
  | cons t ts ih =>
    intro st k hinv hk v hv
    rw [List.map_cons, runRequests_cons] at hv
    rcases List.mem_cons.mp hv with hv | hv
    · subst hv
      rw [checkLimit_fst]
      intro hmem
      have hge := (checkVerdict_minute_mem (st.limits (minuteKey u i))
        (st.limits (hourKey u i)) (st.limits (burstKey u i))
        (st.tokens (tokenKey u)) (st.limits (ipKey i)) tks t).mp hmem
      have hle := getLimit_count_le (st.limits (minuteKey u i)) 60000 t k hinv
      simp only [requestsPerMinute] at hge
      simp only [List.length_cons] at hk
      omega
    · refine ih (checkLimit st u i tks t).2 (k + 1) ?_ ?_ v hv
      · rcases hb : (checkLimit st u i tks t).1.allowed with _ | _
        · rw [checkLimit_not_allowed _ _ _ _ _ hb]
          rcases hinv with h | ⟨r, hs, hc⟩
          · exact Or.inl h
          · exact Or.inr ⟨r, hs, by omega⟩
        · exact Or.inr ⟨updateLimit (st.limits (minuteKey u i)) 60000 t,
            checkLimit_minute_slot st u i tks t hb,
            updateLimit_count_le (st.limits (minuteKey u i)) 60000 t k hinv⟩
      · simp only [List.length_cons] at hk
        omega

/-- A fully admitted run inside one minute window advances the minute
count by exactly one per request and keeps the window deadline. -/
theorem run_minute_exact (u i : String) (tks : ℤ) (t1 : ℕ) (ts : List ℕ) :
    ∀ (st : Store) (c : ℕ),
    st.limits (minuteKey u i) = .ok ⟨c, t1 + 60000, t1⟩ →
    (∀ t ∈ ts, t ≤ t1 + 60000) →
    (∀ v ∈ (runRequests st i tks (ts.map (fun t => (u, t)))).2, v.allowed = true) →
    (runRequests st i tks (ts.map (fun t => (u, t)))).1.limits (minuteKey u i) =
      .ok ⟨c + ts.length, t1 + 60000, t1⟩ := by
  induction ts with
  | nil =>
    intro st c hslot _ _
    rw [List.map_nil, runRequests_nil]
    simpa using hslot
  | cons t ts ih =>
    intro st c hslot htime hall
    have hallow : (checkLimit st u i tks t).1.allowed = true := by
      apply hall
      rw [List.map_cons, runRequests_cons]
      exact List.mem_cons_self _ _
    have hslot2 : (checkLimit st u i tks t).2.limits (minuteKey u i) =
        .ok ⟨c + 1, t1 + 60000, t1⟩ := by
      rw [checkLimit_minute_slot st u i tks t hallow, hslot,
        updateLimit_ok_live c (t1 + 60000) t1 60000 t
          (htime t (List.mem_cons_self _ _))]
    have hall2 : ∀ v ∈ (runRequests (checkLimit st u i tks t).2 i tks
        (ts.map (fun x => (u, x)))).2, v.allowed = true := by
      intro v hv
      apply hall
      rw [List.map_cons, runRequests_cons]
      exact List.mem_cons_of_mem _ hv
    have := ih (checkLimit st u i tks t).2 (c + 1) hslot2
      (fun x hx => htime x (List.mem_cons_of_mem _ hx)) hall2
    rw [List.map_cons, runRequests_cons]
    dsimp only
    rw [this]
    have hlen : c + 1 + ts.length = c + (ts.length + 1) := by omega
    rw [hlen]
    simp


/-- Claim C4.  For every sequence of at most 30 requests from one
`(user, ip)` pair inside a single 60-second fixed window (starting from
no stored minute record), every verdict passes the minute check — the
comparison is against the pre-increment count.  And when exactly 30
such requests have all been admitted, a 31st request strictly inside
the same window is denied: its verdict carries the minute violation and
a positive `retryAfterSeconds`. -/
theorem minute_window_boundary (u i : String) (tks : ℤ) (st0 : Store) (t1 : ℕ)
    (rest : List ℕ) (t31 : ℕ)
    (hfresh : st0.limits (minuteKey u i) = .absent)
    (hwin : ∀ t ∈ t1 :: rest, t1 ≤ t ∧ t ≤ t1 + 60000)
    (hlen : (t1 :: rest).length ≤ 30) :
    (∀ v ∈ (runRequests st0 i tks ((t1 :: rest).map (fun t => (u, t)))).2,
      "Minute limit (30/min)" ∉ v.violations) ∧
    ((t1 :: rest).length = 30 →
      (∀ v ∈ (runRequests st0 i tks ((t1 :: rest).map (fun t => (u, t)))).2,
        v.allowed = true) →
      t31 < t1 + 60000 →
      (checkLimit (runRequests st0 i tks ((t1 :: rest).map (fun t => (u, t)))).1
          u i tks t31).1.allowed = false ∧
      "Minute limit (30/min)" ∈ (checkLimit (runRequests st0 i tks
          ((t1 :: rest).map (fun t => (u, t)))).1 u i tks t31).1.violations ∧
      0 < (checkLimit (runRequests st0 i tks ((t1 :: rest).map (fun t => (u, t)))).1
          u i tks t31).1.retryAfter) := by
  constructor
  · exact run_minute_bound u i tks (t1 :: rest) st0 0 (Or.inl hfresh) (by simpa using hlen)
  · intro h30 hall ht31
    have hallow1 : (checkLimit st0 u i tks t1).1.allowed = true := by
      apply hall
      rw [List.map_cons, runRequests_cons]
      exact List.mem_cons_self _ _
    have hslot1 : (checkLimit st0 u i tks t1).2.limits (minuteKey u i) =
        .ok ⟨1, t1 + 60000, t1⟩ := by
      rw [checkLimit_minute_slot _ _ _ _ _ hallow1, hfresh, updateLimit_absent]
    have hall2 : ∀ v ∈ (runRequests (checkLimit st0 u i tks t1).2 i tks
        (rest.map (fun x => (u, x)))).2, v.allowed = true := by
      intro v hv
      apply hall
      rw [List.map_cons, runRequests_cons]
      exact List.mem_cons_of_mem _ hv
    have hexact := run_minute_exact u i tks t1 rest (checkLimit st0 u i tks t1).2 1 hslot1
      (fun t ht => (hwin t (List.mem_cons_of_mem _ ht)).2) hall2
    have hrestlen : rest.length = 29 := by
      simp only [List.length_cons] at h30
      omega
    have hfinal : (runRequests st0 i tks ((t1 :: rest).map (fun t => (u, t)))).1.limits
        (minuteKey u i) = .ok ⟨30, t1 + 60000, t1⟩ := by
      rw [List.map_cons, runRequests_cons]
      dsimp only
      rw [hexact, hrestlen]
    have hcnt : getLimit ((runRequests st0 i tks ((t1 :: rest).map
        (fun t => (u, t)))).1.limits (minuteKey u i)) 60000 t31 =
        ⟨30, t1 + 60000, t1⟩ := by
      rw [hfinal]
      exact getLimit_ok_live 30 (t1 + 60000) t1 60000 t31 (by omega)
    have hge : (getLimit ((runRequests st0 i tks ((t1 :: rest).map
        (fun t => (u, t)))).1.limits (minuteKey u i)) 60000 t31).count ≥
        requestsPerMinute := by
      rw [hcnt]
      show (30 : ℕ) ≥ requestsPerMinute
      simp [requestsPerMinute]
    have hceil : 1 ≤ ceilSeconds ((getLimit ((runRequests st0 i tks ((t1 :: rest).map
        (fun t => (u, t)))).1.limits (minuteKey u i)) 60000 t31).resetAt - t31) := by
      rw [hcnt]
      show 1 ≤ ceilSeconds (t1 + 60000 - t31)
      unfold ceilSeconds
      omega
    set stf := (runRequests st0 i tks ((t1 :: rest).map (fun t => (u, t)))).1 with hstf
    have hmem := (checkVerdict_minute_mem (stf.limits (minuteKey u i))
      (stf.limits (hourKey u i)) (stf.limits (burstKey u i))
      (stf.tokens (tokenKey u)) (stf.limits (ipKey i)) tks t31).mpr hge
    have hret := checkVerdict_minute_retry_pos (stf.limits (minuteKey u i))
      (stf.limits (hourKey u i)) (stf.limits (burstKey u i))
      (stf.tokens (tokenKey u)) (stf.limits (ipKey i)) tks t31 hge hceil
    refine ⟨?_, ?_, ?_⟩
    · rw [checkLimit_fst]
      exact checkVerdict_not_allowed_of_mem hmem
    · rw [checkLimit_fst]
      exact hmem
    · rw [checkLimit_fst]
      omega

/-- Witness for `minute_window_boundary`: 30 admitted requests at the
demo times (five per burst window) followed by a denied 31st request at
50,015 ms. -/
theorem minute_window_boundary_witness :
    (∀ v ∈ (runRequests demoStore "ip" 0
        ((0 :: demoTimesTail).map (fun t => ("u", t)))).2, v.allowed = true) ∧
    (checkLimit (runRequests demoStore "ip" 0
        ((0 :: demoTimesTail).map (fun t => ("u", t)))).1 "u" "ip" 0 50015).1.allowed
      = false ∧
    "Minute limit (30/min)" ∈ (checkLimit (runRequests demoStore "ip" 0
        ((0 :: demoTimesTail).map (fun t => ("u", t)))).1 "u" "ip" 0 50015).1.violations ∧
    0 < (checkLimit (runRequests demoStore "ip" 0
        ((0 :: demoTimesTail).map (fun t => ("u", t)))).1 "u" "ip" 0 50015).1.retryAfter := by
  have hall : ∀ v ∈ (runRequests demoStore "ip" 0
      ((0 :: demoTimesTail).map (fun t => ("u", t)))).2, v.allowed = true := by decide
  have h := (minute_window_boundary "u" "ip" 0 demoStore 0 demoTimesTail 50015 rfl
    (by decide) (by decide)).2 (by decide) hall (by decide)
  exact ⟨hall, h.1, h.2.1, h.2.2⟩

end MaxMovies
